import Mathlib

/-!
Verification of the tracker state store of `tg_challenge_bot`
(`src/database.py`, `src/data.py`) and of the report renderer described in
the design document.

The SQLite table `tracker_entries` is embedded as a list of rows in rowid
order; every query of `database.py` is translated clause by clause:
`WHERE` becomes `List.filter`, `ORDER BY` becomes `List.mergeSort` on the
corresponding lexicographic key, `SELECT DISTINCT` becomes `List.dedup`
before sorting, `INSERT .. ON CONFLICT .. DO UPDATE` becomes an
update-in-place when a row with the unique key exists and an append
otherwise, and `DELETE` becomes a filter.  Python `Optional` values become
`Option`.
-/

namespace TgBot

/-- A row of the `tracker_entries` table (`database.py`, `init_database`):
columns `chat_id, user_id, habit_id, date, status` with
`UNIQUE(chat_id, user_id, habit_id, date)`.  The `status` column is a
nullable integer in the schema, hence `Option Int`. -/
structure TrackerRow where
  chat_id  : Int
  user_id  : Int
  habit_id : String
  date     : String
  status   : Option Int
deriving DecidableEq, Repr

/-- The `tracker_entries` table, rows in rowid (insertion) order. -/
abbrev TrackerDB := List TrackerRow

/-- The `WHERE chat_id = ? AND user_id = ? AND habit_id = ? AND date = ?`
clause used by `get_tracker_entry` / `set_tracker_entry`. -/
def rowKeyMatches (r : TrackerRow) (c u : Int) (h d : String) : Bool :=
  r.chat_id == c && r.user_id == u && r.habit_id == h && r.date == d

/-- `database.get_tracker_entry`: `SELECT status` for the key, `fetchone`;
returns the row's `status` when a row exists, `None` otherwise. -/
def get_tracker_entry (db : TrackerDB) (c u : Int) (h d : String) : Option Int :=
  match db.find? (fun r => rowKeyMatches r c u h d) with
  | some r => r.status
  | none => none

/-- Whether a row with the full unique key exists (the `ON CONFLICT`
condition of the upsert in `set_tracker_entry`). -/
def hasRow (db : TrackerDB) (c u : Int) (h d : String) : Bool :=
  db.any (fun r => rowKeyMatches r c u h d)

/-- `database.set_tracker_entry`: `status = None` runs
`DELETE FROM tracker_entries WHERE <key>`; otherwise
`INSERT .. VALUES (.., 1 if status else 0, ..) ON CONFLICT(<key>) DO UPDATE
SET status = ?`. -/
def set_tracker_entry (db : TrackerDB) (c u : Int) (h d : String)
    (status : Option Bool) : TrackerDB :=
  match status with
  | none => db.filter (fun r => !(rowKeyMatches r c u h d))
  | some b =>
      let si : Int := if b then 1 else 0
      if hasRow db c u h d then
        db.map (fun r =>
          if rowKeyMatches r c u h d then { r with status := some si } else r)
      else
        db ++ [⟨c, u, h, d, some si⟩]

/-- The `ORDER BY user_id, habit_id, date` comparison of
`get_tracker_entries_for_date_range`, on the selected
`(user_id, habit_id, date, status)` tuples. -/
def entryLe (a b : Int × String × String × Option Int) : Bool :=
  decide (a.1 < b.1) ||
    (a.1 == b.1 && (decide (a.2.1 < b.2.1) ||
      (a.2.1 == b.2.1 && decide (a.2.2.1 ≤ b.2.2.1))))

/-- `database.get_tracker_entries_for_date_range`:
`SELECT user_id, habit_id, date, status WHERE chat_id = ? AND date >= ?
AND date <= ? ORDER BY user_id, habit_id, date`.  SQLite compares the
`TEXT` dates byte-wise, which on the `YYYY-MM-DD` strings is the
lexicographic string order. -/
def get_tracker_entries_for_date_range (db : TrackerDB) (c : Int)
    (ds de : String) : List (Int × String × String × Option Int) :=
  ((db.filter (fun r =>
      r.chat_id == c && decide (ds ≤ r.date) && decide (r.date ≤ de))).map
    (fun r => (r.user_id, r.habit_id, r.date, r.status))).mergeSort entryLe

/-- The `ORDER BY habit_id` comparison, lexicographic on strings. -/
def strLe (a b : String) : Bool := decide (a ≤ b)

/-- `database.get_user_habits_for_chat`: `SELECT DISTINCT habit_id WHERE
chat_id = ? AND user_id = ? ORDER BY habit_id`. -/
def get_user_habits_for_chat (db : TrackerDB) (c u : Int) : List String :=
  (((db.filter (fun r => r.chat_id == c && r.user_id == u)).map
    (fun r => r.habit_id)).dedup).mergeSort strLe

/-- The `ORDER BY user_id, habit_id` comparison on distinct
`(user_id, habit_id)` pairs. -/
def pairLe (a b : Int × String) : Bool :=
  decide (a.1 < b.1) || (a.1 == b.1 && decide (a.2 ≤ b.2))

/-- One iteration of the Python dict-building loop of
`get_all_user_habits_for_chat`: `if user_id not in result:
result[user_id] = []` then `result[user_id].append(habit_id)`, on an
insertion-ordered association list. -/
def insertUserHabit (acc : List (Int × List String)) (u : Int) (h : String) :
    List (Int × List String) :=
  if acc.any (fun q => q.1 == u) then
    acc.map (fun q => if q.1 == u then (q.1, q.2 ++ [h]) else q)
  else
    acc ++ [(u, [h])]

/-- `database.get_all_user_habits_for_chat`: `SELECT DISTINCT user_id,
habit_id WHERE chat_id = ? ORDER BY user_id, habit_id`, then the dict
`{user_id: [habit_id, ...]}` built row by row (Python dicts preserve
insertion order, so it is an insertion-ordered association list). -/
def get_all_user_habits_for_chat (db : TrackerDB) (c : Int) :
    List (Int × List String) :=
  (((((db.filter (fun r => r.chat_id == c)).map
      (fun r => (r.user_id, r.habit_id))).dedup).mergeSort pairLe).foldl
    (fun acc p => insertUserHabit acc p.1 p.2) [])

/-- Python dict assignment `m[k] = v` on an insertion-ordered association
list: overwrite in place when the key exists, append otherwise. -/
def dictInsert (m : List (String × Option Bool)) (k : String)
    (v : Option Bool) : List (String × Option Bool) :=
  if m.any (fun q => q.1 == k) then
    m.map (fun q => if q.1 == k then (k, v) else q)
  else
    m ++ [(k, v)]

/-- The inner loop of `data.get_tracker_data_for_chat`: for each fetched
entry matching `(user_id, habit_id)`, store
`None if status is None else (status == 1)` under its date. -/
def buildDateMap (u : Int) (h : String)
    (entries : List (Int × String × String × Option Int)) :
    List (String × Option Bool) :=
  entries.foldl
    (fun m e =>
      if e.1 == u && e.2.1 == h then
        dictInsert m e.2.2.1 (e.2.2.2.map (fun s => s == 1))
      else m)
    []

/-- `data.get_tracker_data_for_chat` (duplicated verbatim as
`database.get_tracker_data_for_chat`): fetches the entries in the window
and the all-time user→habit map, and assembles
`{user_id: {habit_id: {date: status}}}` as nested insertion-ordered
association lists. -/
def get_tracker_data_for_chat (db : TrackerDB) (c : Int) (ds de : String) :
    List (Int × List (String × List (String × Option Bool))) :=
  let entries := get_tracker_entries_for_date_range db c ds de
  let auh := get_all_user_habits_for_chat db c
  auh.map (fun q => (q.1, q.2.map (fun h => (h, buildDateMap q.1 h entries))))

/-- A row of the `habits` table: columns `chat_id, habit_id, emoji, name`
with `UNIQUE(chat_id, habit_id)`. -/
structure HabitRow where
  chat_id  : Int
  habit_id : String
  emoji    : String
  name     : String
deriving DecidableEq, Repr

/-- The `habits` table, rows in rowid (insertion) order. -/
abbrev HabitsDB := List HabitRow

/-- The `WHERE chat_id = ? AND habit_id = ?` clause on `habits`. -/
def habitKeyMatches (r : HabitRow) (c : Int) (h : String) : Bool :=
  r.chat_id == c && r.habit_id == h

/-- `database.get_habit`: `SELECT emoji, name` for the key, `fetchone`;
`{"emoji": .., "name": ..}` or `None`. -/
def get_habit (hdb : HabitsDB) (c : Int) (h : String) :
    Option (String × String) :=
  match hdb.find? (fun r => habitKeyMatches r c h) with
  | some r => some (r.emoji, r.name)
  | none => none

/-- `database.set_habit`: `INSERT INTO habits (chat_id, habit_id, emoji,
name) VALUES (?, ?, ?, ?) ON CONFLICT(chat_id, habit_id) DO UPDATE SET
emoji = ?, name = ?`.  Note: no validation of any argument is performed. -/
def set_habit (hdb : HabitsDB) (c : Int) (h e n : String) : HabitsDB :=
  if hdb.any (fun r => habitKeyMatches r c h) then
    hdb.map (fun r =>
      if habitKeyMatches r c h then { r with emoji := e, name := n } else r)
  else
    hdb ++ [⟨c, h, e, n⟩]

/-- Two tracker rows agree on the whole unique key
`(chat_id, user_id, habit_id, date)`. -/
def sameKey (r s : TrackerRow) : Bool :=
  r.chat_id == s.chat_id && r.user_id == s.user_id &&
    r.habit_id == s.habit_id && r.date == s.date

/-- The `UNIQUE(chat_id, user_id, habit_id, date)` constraint: no two rows
of the table share the full key. -/
def noDupKeys : TrackerDB → Bool
  | [] => true
  | r :: rest => rest.all (fun s => !(sameKey r s)) && noDupKeys rest

/-- Every stored `status` is `0` or `1` (never SQL `NULL`): the only
writer, `set_tracker_entry`, stores `1 if status else 0` and deletes on
`None`. -/
def statusesOk (db : TrackerDB) : Bool :=
  db.all (fun r => r.status == some 0 || r.status == some 1)

/-- The table invariant: the unique-key constraint plus non-null
statuses. -/
def dbInv (db : TrackerDB) : Bool := noDupKeys db && statusesOk db

/-- States of `tracker_entries` reachable from the empty table through the
sole writer `set_tracker_entry`. -/
inductive Reachable : TrackerDB → Prop
  | empty : Reachable []
  | step (c u : Int) (h d : String) (st : Option Bool) {db : TrackerDB} :
      Reachable db → Reachable (set_tracker_entry db c u h d st)

/-- The `UNIQUE(chat_id, habit_id)` constraint on the `habits` table. -/
def noDupHabitKeys : HabitsDB → Bool
  | [] => true
  | r :: rest =>
      rest.all (fun s => !(r.chat_id == s.chat_id && r.habit_id == s.habit_id)) &&
        noDupHabitKeys rest

/-- Count of rows of `tracker_entries` carrying a given full key. -/
def countKey (db : TrackerDB) (c u : Int) (h d : String) : Nat :=
  db.countP (fun r => rowKeyMatches r c u h d)

/-- Count of rows of `habits` carrying a given key. -/
def countHabitKey (hdb : HabitsDB) (c : Int) (h : String) : Nat :=
  hdb.countP (fun r => habitKeyMatches r c h)

/-! ### Report renderer

The renderer itself is not among the repository's source files (`main.py`
holds only chat-transport handlers), so it is modelled from the design
document's algorithm (§4.2). -/

/-- Modelled from the spec: step 3 of the renderer algorithm, whose code is
absent from the sources — flatten the per-user habit lists into one ordered
list of `(user_id, habit_id)` columns. -/
def flattenColumns (pairs : List (Int × List String)) : List (Int × String) :=
  pairs.flatMap (fun q => q.2.map (fun h => (q.1, h)))

/-- Modelled from the spec: user-emoji metadata lookup with the placeholder
glyph `"❓"` when the user has no profile row. -/
def lookupUserEmoji (umeta : List (Int × String)) (u : Int) : String :=
  match umeta.find? (fun q => q.1 == u) with
  | some q => q.2
  | none => "❓"

/-- Modelled from the spec: habit-emoji metadata lookup with the
placeholder glyph `"❓"` when the habit has no definition row. -/
def lookupHabitEmoji (hmeta : List (String × String)) (h : String) : String :=
  match hmeta.find? (fun q => q.1 == h) with
  | some q => q.2
  | none => "❓"

/-- Modelled from the spec: header row 1 (step 4) — for each user in
sorted order, that user's emoji repeated once per habit column the user
owns. -/
def userHeaderCells (pairs : List (Int × List String))
    (umeta : List (Int × String)) : List String :=
  pairs.flatMap (fun q => q.2.map (fun _ => lookupUserEmoji umeta q.1))

/-- Modelled from the spec: header row 2 (step 5) — for each column in the
flattened order, that habit's emoji. -/
def habitHeaderCells (pairs : List (Int × List String))
    (hmeta : List (String × String)) : List String :=
  (flattenColumns pairs).map (fun col => lookupHabitEmoji hmeta col.2)

/-- Modelled from the spec: the status glyphs of step 6. -/
def statusGlyph : Option Bool → String
  | some true => "✅"
  | some false => "⛔"
  | none => "🔘"

/-- Status of one column at one date, looked up in the entries fetched
once by `listEntriesInRange` (absence means `Unknown`). -/
def entryStatus (entries : List (Int × String × String × Option Int))
    (u : Int) (h d : String) : Option Bool :=
  match entries.find? (fun e => e.1 == u && e.2.1 == h && e.2.2.1 == d) with
  | some e => e.2.2.2.map (fun s => s == 1)
  | none => none

/-- Modelled from the spec: one date row (step 6) — for each column in the
flattened order, the status glyph of that column at that date. -/
def dateRowCells (pairs : List (Int × List String))
    (entries : List (Int × String × String × Option Int)) (d : String) :
    List String :=
  (flattenColumns pairs).map
    (fun col => statusGlyph (entryStatus entries col.1 col.2 d))

/-! ### Generic helper lemmas -/

theorem find?_filter_of_imp {α : Type} (l : List α) (p q : α → Bool)
    (hpq : ∀ r, p r = true → q r = true) :
    (l.filter q).find? p = l.find? p := by
  induction l with
  | nil => rfl
  | cons r t ih =>
      by_cases hq : q r = true
      · rw [List.filter_cons_of_pos hq]
        by_cases hp : p r = true
        · rw [List.find?_cons_of_pos _ hp, List.find?_cons_of_pos _ hp]
        · rw [List.find?_cons_of_neg _ (by simpa using hp),
            List.find?_cons_of_neg _ (by simpa using hp), ih]
      · have hp : ¬ p r = true := fun hp => hq (hpq r hp)
        rw [List.filter_cons_of_neg (by simpa using hq),
          List.find?_cons_of_neg _ (by simpa using hp), ih]

theorem find?_map_key_preserving {α : Type} (l : List α) (f : α → α)
    (p : α → Bool) (hpres : ∀ r, p (f r) = p r)
    (hid : ∀ r, p r = true → f r = r) :
    (l.map f).find? p = l.find? p := by
  induction l with
  | nil => rfl
  | cons r t ih =>
      rw [List.map_cons]
      by_cases hp : p r = true
      · rw [List.find?_cons_of_pos _ (by rw [hpres]; exact hp),
          List.find?_cons_of_pos _ hp, hid r hp]
      · rw [List.find?_cons_of_neg _ (by rw [hpres]; simpa using hp),
          List.find?_cons_of_neg _ (by simpa using hp), ih]

/-- Replacing the `status` field leaves the unique key untouched. -/
theorem rowKeyMatches_set_status (r : TrackerRow) (c u : Int) (h d : String)
    (s : Option Int) :
    rowKeyMatches { r with status := s } c u h d = rowKeyMatches r c u h d := rfl

/-- A freshly made row matches its own key. -/
theorem rowKeyMatches_self (c u : Int) (h d : String) (s : Option Int) :
    rowKeyMatches ⟨c, u, h, d, s⟩ c u h d = true := by
  simp [rowKeyMatches]

/-- After storing `Done`/`NotDone`, reading the same key returns the stored
encoding (`1` for `True`, `0` for `False`), from any prior table state. -/
theorem get_after_set_entry (db : TrackerDB) (c u : Int) (h d : String)
    (b : Bool) :
    get_tracker_entry (set_tracker_entry db c u h d (some b)) c u h d =
      some (if b then 1 else 0) := by
  simp only [get_tracker_entry, set_tracker_entry]
  cases hr : hasRow db c u h d with
  | true =>
      rw [if_pos rfl, List.find?_map]
      have hcomp : ((fun r => rowKeyMatches r c u h d) ∘ fun r =>
          if rowKeyMatches r c u h d = true then
            { r with status := some (if b then (1 : Int) else 0) } else r) =
          fun r => rowKeyMatches r c u h d := by
        funext r
        by_cases hk : rowKeyMatches r c u h d = true
        · simp [Function.comp, hk, rowKeyMatches_set_status]
        · simp [Function.comp, hk]
      rw [hcomp]
      have hsome : (db.find? (fun r => rowKeyMatches r c u h d)).isSome = true := by
        rw [List.find?_isSome]
        exact List.any_eq_true.mp hr
      cases hfind : db.find? (fun r => rowKeyMatches r c u h d) with
      | none => rw [hfind] at hsome; simp at hsome
      | some r₀ =>
          have hk : rowKeyMatches r₀ c u h d = true := by
            have := List.find?_some hfind
            simpa using this
          simp [hk]
  | false =>
      rw [if_neg Bool.false_ne_true, List.find?_append]
      have hnone : db.find? (fun r => rowKeyMatches r c u h d) = none := by
        rw [List.find?_eq_none]
        intro x hx
        exact List.any_eq_false.mp hr x hx
      rw [hnone]
      simp [rowKeyMatches_self]

/-- Replacing the `emoji`/`name` fields leaves the habit key untouched. -/
theorem habitKeyMatches_set_meta (r : HabitRow) (c : Int) (h e n : String) :
    habitKeyMatches { r with emoji := e, name := n } c h =
      habitKeyMatches r c h := rfl

/-- After `set_habit`, reading the same `(chat_id, habit_id)` key returns
the stored `{emoji, name}`, from any prior table state. -/
theorem get_after_set_habit (hdb : HabitsDB) (c : Int) (h e n : String) :
    get_habit (set_habit hdb c h e n) c h = some (e, n) := by
  unfold get_habit set_habit
  cases hr : hdb.any (fun r => habitKeyMatches r c h) with
  | true =>
      rw [if_pos rfl, List.find?_map]
      have hcomp : ((fun r => habitKeyMatches r c h) ∘ fun r =>
          if habitKeyMatches r c h = true then
            { r with emoji := e, name := n } else r) =
          fun r => habitKeyMatches r c h := by
        funext r
        by_cases hk : habitKeyMatches r c h = true
        · simp [Function.comp, hk, habitKeyMatches_set_meta]
        · simp [Function.comp, hk]
      rw [hcomp]
      have hsome : (hdb.find? (fun r => habitKeyMatches r c h)).isSome = true := by
        rw [List.find?_isSome]
        exact List.any_eq_true.mp hr
      cases hfind : hdb.find? (fun r => habitKeyMatches r c h) with
      | none => rw [hfind] at hsome; simp at hsome
      | some r₀ =>
          have hk : habitKeyMatches r₀ c h = true := by
            have := List.find?_some hfind
            simpa using this
          simp [hk]
  | false =>
      rw [if_neg Bool.false_ne_true, List.find?_append]
      have hnone : hdb.find? (fun r => habitKeyMatches r c h) = none := by
        rw [List.find?_eq_none]
        intro x hx
        exact List.any_eq_false.mp hr x hx
      rw [hnone]
      have hself : habitKeyMatches ⟨c, h, e, n⟩ c h = true := by
        simp [habitKeyMatches]
      simp [hself]

/-- Membership in the date-range query: exactly the stored rows of the
chat whose date lies (lexicographically) between the inclusive bounds,
projected to `(user_id, habit_id, date, status)` tuples. -/
theorem mem_range_iff (db : TrackerDB) (c : Int) (ds de : String)
    (t : Int × String × String × Option Int) :
    t ∈ get_tracker_entries_for_date_range db c ds de ↔
      (TrackerRow.mk c t.1 t.2.1 t.2.2.1 t.2.2.2 ∈ db ∧
        ds ≤ t.2.2.1 ∧ t.2.2.1 ≤ de) := by
  unfold get_tracker_entries_for_date_range
  rw [List.mem_mergeSort, List.mem_map]
  constructor
  · rintro ⟨r, hr, hft⟩
    rw [List.mem_filter] at hr
    obtain ⟨hmem, hp⟩ := hr
    simp only [Bool.and_eq_true, beq_iff_eq, decide_eq_true_eq] at hp
    obtain ⟨⟨hc, h1⟩, h2⟩ := hp
    cases r with
    | mk rc ru rh rd rs =>
        cases hft
        exact ⟨by simpa [← hc] using hmem, h1, h2⟩
  · rintro ⟨hmem, h1, h2⟩
    refine ⟨TrackerRow.mk c t.1 t.2.1 t.2.2.1 t.2.2.2, ?_, rfl⟩
    rw [List.mem_filter]
    exact ⟨hmem, by simp [h1, h2]⟩

/-- Deleting a key leaves zero rows with that key. -/
theorem countKey_after_delete (db : TrackerDB) (c u : Int) (h d : String) :
    countKey (set_tracker_entry db c u h d none) c u h d = 0 := by
  simp only [set_tracker_entry, countKey]
  rw [List.countP_eq_zero]
  intro a ha
  rw [List.mem_filter] at ha
  simpa using ha.2

/-- Deleting a key leaves no row with that key. -/
theorem hasRow_after_delete (db : TrackerDB) (c u : Int) (h d : String) :
    hasRow (set_tracker_entry db c u h d none) c u h d = false := by
  simp only [set_tracker_entry, hasRow]
  rw [List.any_eq_false]
  intro x hx
  rw [List.mem_filter] at hx
  simpa using hx.2

/-- When no row with the key exists, the upsert takes the plain `INSERT`
branch and appends one freshly encoded row. -/
theorem set_entry_append_of_no_row (db : TrackerDB) (c u : Int)
    (h d : String) (b : Bool) (hf : hasRow db c u h d = false) :
    set_tracker_entry db c u h d (some b) =
      db ++ [TrackerRow.mk c u h d (some (if b then 1 else 0))] := by
  simp only [set_tracker_entry]
  rw [hf, if_neg Bool.false_ne_true]

/-- C1: writing `Unknown` (`status = None`) deletes any row for the key —
a no-op when no row exists — after which `getEntry` returns
`Unknown`/`None` and the key is absent from every `listEntriesInRange`
result for that chat. -/
theorem setEntry_unknown_tristate (db : TrackerDB) (c u : Int)
    (h d : String) :
    get_tracker_entry (set_tracker_entry db c u h d none) c u h d = none
    ∧ (hasRow db c u h d = false → set_tracker_entry db c u h d none = db)
    ∧ ∀ ds de : String, ∀ t ∈ get_tracker_entries_for_date_range
        (set_tracker_entry db c u h d none) c ds de,
        ¬(t.1 = u ∧ t.2.1 = h ∧ t.2.2.1 = d) := by
  refine ⟨?_, ?_, ?_⟩
  · simp only [get_tracker_entry, set_tracker_entry]
    have hnone : (db.filter (fun r => !(rowKeyMatches r c u h d))).find?
        (fun r => rowKeyMatches r c u h d) = none := by
      rw [List.find?_filter, List.find?_eq_none]
      intro x hx
      simp
    rw [hnone]
  · intro hf
    simp only [set_tracker_entry]
    apply List.filter_eq_self.mpr
    intro a ha
    have := List.any_eq_false.mp hf a ha
    simpa using this
  · intro ds de t ht hkey
    obtain ⟨h1, h2, h3⟩ := hkey
    rw [mem_range_iff] at ht
    obtain ⟨hmem, _, _⟩ := ht
    simp only [set_tracker_entry, List.mem_filter] at hmem
    have := hmem.2
    rw [h1, h2, h3] at this
    simp [rowKeyMatches_self] at this

/-- C1 witness at a concrete one-row table. -/
theorem setEntry_unknown_tristate_witness :
    get_tracker_entry (set_tracker_entry
        [TrackerRow.mk 1 2 "reading" "2024-01-01" (some 1)]
        1 2 "reading" "2024-01-01" none) 1 2 "reading" "2024-01-01" = none
    ∧ (hasRow [TrackerRow.mk 1 2 "reading" "2024-01-01" (some 1)]
        3 2 "reading" "2024-01-01" = false →
        set_tracker_entry [TrackerRow.mk 1 2 "reading" "2024-01-01" (some 1)]
          3 2 "reading" "2024-01-01" none =
          [TrackerRow.mk 1 2 "reading" "2024-01-01" (some 1)]) :=
  ⟨(setEntry_unknown_tristate
      [TrackerRow.mk 1 2 "reading" "2024-01-01" (some 1)] 1 2
      "reading" "2024-01-01").1,
   (setEntry_unknown_tristate
      [TrackerRow.mk 1 2 "reading" "2024-01-01" (some 1)] 3 2
      "reading" "2024-01-01").2.1⟩

/-- C8: `setEntry(Done)` then `setEntry(Unknown)` then `setEntry(NotDone)`
leaves the key's value `NotDone` (stored `0`) with exactly one row. -/
theorem setEntry_roundtrip (db : TrackerDB) (c u : Int) (h d : String) :
    get_tracker_entry (set_tracker_entry (set_tracker_entry
        (set_tracker_entry db c u h d (some true)) c u h d none)
        c u h d (some false)) c u h d = some 0
    ∧ countKey (set_tracker_entry (set_tracker_entry
        (set_tracker_entry db c u h d (some true)) c u h d none)
        c u h d (some false)) c u h d = 1 := by
  constructor
  · simpa using get_after_set_entry
      (set_tracker_entry (set_tracker_entry db c u h d (some true))
        c u h d none) c u h d false
  · have h0 : countKey (set_tracker_entry
        (set_tracker_entry db c u h d (some true)) c u h d none) c u h d = 0 :=
      countKey_after_delete _ c u h d
    have hf : hasRow (set_tracker_entry
        (set_tracker_entry db c u h d (some true)) c u h d none) c u h d = false :=
      hasRow_after_delete _ c u h d
    rw [set_entry_append_of_no_row _ _ _ _ _ _ hf, countKey,
      List.countP_append]
    have : (set_tracker_entry (set_tracker_entry db c u h d (some true))
        c u h d none).countP (fun r => rowKeyMatches r c u h d) = 0 := h0
    rw [this]
    simp [rowKeyMatches_self]

/-- C6 counterexample: `set_habit` accepts an empty `habit_id` and creates
the row (no `InvalidArgument` error exists in the code), and
`set_tracker_entry` accepts a malformed date string and stores it
verbatim. -/
theorem no_invalid_argument_counterexample :
    get_habit (set_habit [] 1 "" "e" "n") 1 "" = some ("e", "n")
    ∧ set_habit [] 1 "" "e" "n" = [HabitRow.mk 1 "" "e" "n"]
    ∧ get_tracker_entry (set_tracker_entry [] 1 2 "h" "not-a-date"
        (some true)) 1 2 "h" "not-a-date" = some 1 := by
  refine ⟨?_, ?_, ?_⟩ <;> decide

/-- C6 amended: neither `set_habit` nor `set_tracker_entry` validates its
arguments — an empty `habit_id` is accepted and creates/overwrites its
row, and any date string whatsoever is accepted and stored verbatim; no
`InvalidArgument` failure path exists. -/
theorem no_validation_amended (hdb : HabitsDB) (c : Int) (e n : String)
    (db : TrackerDB) (c2 u : Int) (h dt : String) (b : Bool) :
    get_habit (set_habit hdb c "" e n) c "" = some (e, n)
    ∧ get_tracker_entry (set_tracker_entry db c2 u h dt (some b)) c2 u h dt =
        some (if b then 1 else 0) :=
  ⟨get_after_set_habit hdb c "" e n, get_after_set_entry db c2 u h dt b⟩

/-- If a row matches one full key, it cannot match a different full key. -/
theorem keyMatches_of_ne (r : TrackerRow) (c u c' u' : Int)
    (h d h' d' : String) (hne : ¬(c = c' ∧ u = u' ∧ h = h' ∧ d = d'))
    (hk : rowKeyMatches r c' u' h' d' = true) :
    rowKeyMatches r c u h d = false := by
  cases hk2 : rowKeyMatches r c u h d with
  | false => rfl
  | true =>
      exfalso
      simp only [rowKeyMatches, Bool.and_eq_true, beq_iff_eq] at hk hk2
      exact hne ⟨hk2.1.1.1 ▸ hk.1.1.1, hk2.1.1.2 ▸ hk.1.1.2,
        hk2.1.2 ▸ hk.1.2, hk2.2 ▸ hk.2⟩

/-- C10: per-key frame property — `set_tracker_entry` on one key (any of
delete, insert, update) leaves `get_tracker_entry` on any other key
unchanged. -/
theorem setEntry_frame (db : TrackerDB) (c u c' u' : Int)
    (h d h' d' : String) (st : Option Bool)
    (hne : ¬(c = c' ∧ u = u' ∧ h = h' ∧ d = d')) :
    get_tracker_entry (set_tracker_entry db c u h d st) c' u' h' d' =
      get_tracker_entry db c' u' h' d' := by
  cases st with
  | none =>
      simp only [get_tracker_entry, set_tracker_entry]
      rw [find?_filter_of_imp]
      intro r hp
      have := keyMatches_of_ne r c u c' u' h d h' d' hne hp
      simp [this]
  | some b =>
      simp only [get_tracker_entry, set_tracker_entry]
      cases hr : hasRow db c u h d with
      | true =>
          rw [if_pos rfl, find?_map_key_preserving]
          · intro r
            by_cases hk : rowKeyMatches r c u h d = true
            · simp [hk, rowKeyMatches_set_status]
            · simp [hk]
          · intro r hp
            have := keyMatches_of_ne r c u c' u' h d h' d' hne hp
            simp [this]
      | false =>
          rw [if_neg Bool.false_ne_true, List.find?_append]
          have hnew : rowKeyMatches
              (TrackerRow.mk c u h d (some (if b then 1 else 0))) c' u' h' d' =
              false := by
            cases hk : rowKeyMatches
                (TrackerRow.mk c u h d (some (if b then 1 else 0))) c' u' h' d' with
            | false => rfl
            | true =>
                exfalso
                simp only [rowKeyMatches, Bool.and_eq_true, beq_iff_eq] at hk
                exact hne ⟨hk.1.1.1, hk.1.1.2, hk.1.2, hk.2⟩
          simp [hnew]

/-- `noDupKeys` restated as a `Pairwise` property. -/
theorem noDupKeys_iff_pairwise (db : TrackerDB) :
    noDupKeys db = true ↔ db.Pairwise (fun r s => ¬ sameKey r s = true) := by
  induction db with
  | nil => simp [noDupKeys]
  | cons r t ih =>
      rw [noDupKeys, Bool.and_eq_true, List.pairwise_cons, ih,
        List.all_eq_true]
      constructor
      · rintro ⟨h1, h2⟩
        exact ⟨fun s hs => by simpa using h1 s hs, h2⟩
      · rintro ⟨h1, h2⟩
        exact ⟨fun s hs => by simpa using h1 s hs, h2⟩

/-- `sameKey` against a literal row is the key-match test. -/
theorem sameKey_mk (r : TrackerRow) (c u : Int) (h d : String)
    (s : Option Int) :
    sameKey r (TrackerRow.mk c u h d s) = rowKeyMatches r c u h d := rfl

/-- Two rows matching the same full key share their key. -/
theorem sameKey_of_both_match (r s : TrackerRow) (c u : Int) (h d : String)
    (h1 : rowKeyMatches r c u h d = true)
    (h2 : rowKeyMatches s c u h d = true) : sameKey r s = true := by
  simp only [rowKeyMatches, Bool.and_eq_true, beq_iff_eq] at h1 h2
  simp [sameKey, h1.1.1.1, h1.1.1.2, h1.1.2, h1.2,
    h2.1.1.1, h2.1.1.2, h2.1.2, h2.2]

/-- The upsert's update-in-place leaves both rows' keys untouched. -/
theorem sameKey_update (a b : TrackerRow) (c u : Int) (h d : String)
    (s : Option Int) :
    sameKey (if rowKeyMatches a c u h d = true then { a with status := s }
        else a)
      (if rowKeyMatches b c u h d = true then { b with status := s }
        else b) = sameKey a b := by
  by_cases h1 : rowKeyMatches a c u h d = true <;>
    by_cases h2 : rowKeyMatches b c u h d = true <;>
      simp [h1, h2] <;> rfl

/-- `set_tracker_entry` preserves the unique-key constraint. -/
theorem noDupKeys_set (db : TrackerDB) (c u : Int) (h d : String)
    (st : Option Bool) (hnd : noDupKeys db = true) :
    noDupKeys (set_tracker_entry db c u h d st) = true := by
  rw [noDupKeys_iff_pairwise] at hnd ⊢
  cases st with
  | none => exact List.Pairwise.sublist (List.filter_sublist db) hnd
  | some b =>
      simp only [set_tracker_entry]
      cases hr : hasRow db c u h d with
      | true =>
          rw [if_pos rfl, List.pairwise_map]
          refine hnd.imp_of_mem ?_
          intro a b _ _ hab hk
          rw [sameKey_update] at hk
          exact hab hk
      | false =>
          rw [if_neg Bool.false_ne_true, List.pairwise_append]
          refine ⟨hnd, List.pairwise_singleton _ _, ?_⟩
          intro a ha b hb hk
          rw [List.mem_singleton] at hb
          subst hb
          rw [sameKey_mk] at hk
          exact absurd hk (by simpa using List.any_eq_false.mp hr a ha)

/-- `set_tracker_entry` preserves the non-null-status invariant. -/
theorem statusesOk_set (db : TrackerDB) (c u : Int) (h d : String)
    (st : Option Bool) (hok : statusesOk db = true) :
    statusesOk (set_tracker_entry db c u h d st) = true := by
  rw [statusesOk, List.all_eq_true] at hok ⊢
  cases st with
  | none =>
      intro r hr
      simp only [set_tracker_entry] at hr
      rw [List.mem_filter] at hr
      exact hok r hr.1
  | some b =>
      simp only [set_tracker_entry]
      cases hr : hasRow db c u h d with
      | true =>
          rw [if_pos rfl]
          intro r hr2
          rw [List.mem_map] at hr2
          obtain ⟨r₀, hr₀, hfr⟩ := hr2
          by_cases hk : rowKeyMatches r₀ c u h d = true
          · rw [if_pos hk] at hfr
            subst hfr
            cases b <;> simp
          · rw [if_neg hk] at hfr
            subst hfr
            exact hok r₀ hr₀
      | false =>
          rw [if_neg Bool.false_ne_true]
          intro r hr2
          rw [List.mem_append] at hr2
          rcases hr2 with hr2 | hr2
          · exact hok r hr2
          · rw [List.mem_singleton] at hr2
            subst hr2
            cases b <;> simp

/-- Every state reachable through `set_tracker_entry` satisfies the table
invariant. -/
theorem reachable_dbInv (db : TrackerDB) (hr : Reachable db) :
    dbInv db = true := by
  induction hr with
  | empty => decide
  | step c u h d st hprev ih =>
      rw [dbInv, Bool.and_eq_true] at ih ⊢
      exact ⟨noDupKeys_set _ _ _ _ _ _ ih.1, statusesOk_set _ _ _ _ _ _ ih.2⟩

/-- Under the unique-key constraint, at most one row carries any key. -/
theorem countKey_le_one (db : TrackerDB) (c u : Int) (h d : String)
    (hnd : noDupKeys db = true) : countKey db c u h d ≤ 1 := by
  induction db with
  | nil => simp [countKey]
  | cons r t ih =>
      rw [noDupKeys, Bool.and_eq_true] at hnd
      rw [countKey, List.countP_cons]
      by_cases hk : rowKeyMatches r c u h d = true
      · have h0 : t.countP (fun s => rowKeyMatches s c u h d) = 0 := by
          rw [List.countP_eq_zero]
          intro s hs hks
          have hall := List.all_eq_true.mp hnd.1 s hs
          rw [Bool.not_eq_eq_eq_not, Bool.not_true] at hall
          rw [sameKey_of_both_match r s c u h d hk hks] at hall
          exact Bool.noConfusion hall
        have : countKey t c u h d = 0 := h0
        rw [countKey] at this
        rw [this, if_pos hk]
      · rw [if_neg hk]
        have := ih hnd.2
        rw [countKey] at this
        omega

/-- C2: storing `Done`/`NotDone` then reading the key returns the stored
value; two stores on the same key leave only the latest value, and the
range listing holds at most one tuple for the key (upsert, never a
duplicate row). -/
theorem setEntry_then_getEntry (db : TrackerDB) (c u : Int) (h d : String)
    (b b' : Bool) (hinv : dbInv db = true) :
    get_tracker_entry (set_tracker_entry db c u h d (some b)) c u h d =
      some (if b then 1 else 0)
    ∧ get_tracker_entry (set_tracker_entry
        (set_tracker_entry db c u h d (some b')) c u h d (some b))
        c u h d = some (if b then 1 else 0)
    ∧ ∀ ds de : String,
        (get_tracker_entries_for_date_range
            (set_tracker_entry (set_tracker_entry db c u h d (some b'))
              c u h d (some b)) c ds de).countP
          (fun t => t.1 == u && t.2.1 == h && t.2.2.1 == d) ≤ 1 := by
  refine ⟨get_after_set_entry db c u h d b, get_after_set_entry _ c u h d b,
    ?_⟩
  intro ds de
  rw [dbInv, Bool.and_eq_true] at hinv
  have hnd2 : noDupKeys (set_tracker_entry
      (set_tracker_entry db c u h d (some b')) c u h d (some b)) = true :=
    noDupKeys_set _ c u h d (some b) (noDupKeys_set _ c u h d (some b') hinv.1)
  unfold get_tracker_entries_for_date_range
  rw [(List.mergeSort_perm _ entryLe).countP_eq, List.countP_map,
    List.countP_filter]
  calc (set_tracker_entry (set_tracker_entry db c u h d (some b'))
          c u h d (some b)).countP
        (fun a => ((fun t => t.1 == u && t.2.1 == h && t.2.2.1 == d) ∘
            fun r => (r.user_id, r.habit_id, r.date, r.status)) a &&
          (a.chat_id == c && decide (ds ≤ a.date) && decide (a.date ≤ de)))
      ≤ (set_tracker_entry (set_tracker_entry db c u h d (some b'))
          c u h d (some b)).countP (fun r => rowKeyMatches r c u h d) := by
        apply List.countP_mono_left
        intro r _ hp
        simp only [Function.comp, Bool.and_eq_true, beq_iff_eq,
          decide_eq_true_eq] at hp
        obtain ⟨⟨⟨h1, h2⟩, h3⟩, ⟨h4, h5⟩, h6⟩ := hp
        simp [rowKeyMatches, h1, h2, h3, h4]
    _ ≤ 1 := countKey_le_one _ c u h d hnd2

/-- C2 witness at a concrete one-row table satisfying the invariant. -/
theorem setEntry_then_getEntry_witness :
    dbInv [TrackerRow.mk 1 2 "reading" "2024-01-01" (some 1)] = true
    ∧ (get_tracker_entry (set_tracker_entry
        [TrackerRow.mk 1 2 "reading" "2024-01-01" (some 1)]
        1 2 "reading" "2024-01-02" (some true)) 1 2 "reading" "2024-01-02" =
          some (if true then 1 else 0)
      ∧ get_tracker_entry (set_tracker_entry (set_tracker_entry
          [TrackerRow.mk 1 2 "reading" "2024-01-01" (some 1)]
          1 2 "reading" "2024-01-02" (some false)) 1 2 "reading"
          "2024-01-02" (some true)) 1 2 "reading" "2024-01-02" =
          some (if true then 1 else 0)
      ∧ ∀ ds de : String,
          (get_tracker_entries_for_date_range
              (set_tracker_entry (set_tracker_entry
                [TrackerRow.mk 1 2 "reading" "2024-01-01" (some 1)]
                1 2 "reading" "2024-01-02" (some false)) 1 2 "reading"
                "2024-01-02" (some true)) 1 ds de).countP
            (fun t => t.1 == 2 && t.2.1 == "reading" &&
              t.2.2.1 == "2024-01-02") ≤ 1) :=
  ⟨by decide,
   setEntry_then_getEntry [TrackerRow.mk 1 2 "reading" "2024-01-01" (some 1)]
     1 2 "reading" "2024-01-02" true false (by decide)⟩

theorem strLe_trans (a b c : String) (h1 : strLe a b = true)
    (h2 : strLe b c = true) : strLe a c = true := by
  simp only [strLe, decide_eq_true_eq] at h1 h2 ⊢
  exact le_trans h1 h2

theorem strLe_total (a b : String) : (strLe a b || strLe b a) = true := by
  simp only [strLe, Bool.or_eq_true, decide_eq_true_eq]
  exact le_total a b

theorem pairLe_trans (a b c : Int × String) (h1 : pairLe a b = true)
    (h2 : pairLe b c = true) : pairLe a c = true := by
  simp only [pairLe, Bool.or_eq_true, Bool.and_eq_true, decide_eq_true_eq,
    beq_iff_eq] at h1 h2 ⊢
  rcases h1 with h1 | ⟨e1, l1⟩ <;> rcases h2 with h2 | ⟨e2, l2⟩
  · exact Or.inl (lt_trans h1 h2)
  · exact Or.inl (by rw [← e2]; exact h1)
  · exact Or.inl (by rw [e1]; exact h2)
  · exact Or.inr ⟨e1.trans e2, le_trans l1 l2⟩

theorem pairLe_total (a b : Int × String) :
    (pairLe a b || pairLe b a) = true := by
  simp only [pairLe, Bool.or_eq_true, Bool.and_eq_true, decide_eq_true_eq,
    beq_iff_eq]
  rcases lt_trichotomy a.1 b.1 with h | h | h
  · exact Or.inl (Or.inl h)
  · rcases le_total a.2 b.2 with h2 | h2
    · exact Or.inl (Or.inr ⟨h, h2⟩)
    · exact Or.inr (Or.inr ⟨h.symm, h2⟩)
  · exact Or.inr (Or.inl h)

theorem entryLe_trans (a b c : Int × String × String × Option Int)
    (h1 : entryLe a b = true) (h2 : entryLe b c = true) :
    entryLe a c = true := by
  simp only [entryLe, Bool.or_eq_true, Bool.and_eq_true, decide_eq_true_eq,
    beq_iff_eq] at h1 h2 ⊢
  rcases h1 with h1 | ⟨e1, h1⟩
  · rcases h2 with h2 | ⟨e2, _⟩
    · exact Or.inl (lt_trans h1 h2)
    · exact Or.inl (by rw [← e2]; exact h1)
  · rcases h2 with h2 | ⟨e2, h2⟩
    · exact Or.inl (by rw [e1]; exact h2)
    · refine Or.inr ⟨e1.trans e2, ?_⟩
      rcases h1 with h1 | ⟨f1, h1⟩
      · rcases h2 with h2 | ⟨f2, _⟩
        · exact Or.inl (lt_trans h1 h2)
        · exact Or.inl (by rw [← f2]; exact h1)
      · rcases h2 with h2 | ⟨f2, h2⟩
        · exact Or.inl (by rw [f1]; exact h2)
        · exact Or.inr ⟨f1.trans f2, le_trans h1 h2⟩

theorem entryLe_total (a b : Int × String × String × Option Int) :
    (entryLe a b || entryLe b a) = true := by
  simp only [entryLe, Bool.or_eq_true, Bool.and_eq_true, decide_eq_true_eq,
    beq_iff_eq]
  rcases lt_trichotomy a.1 b.1 with h | h | h
  · exact Or.inl (Or.inl h)
  · rcases lt_trichotomy a.2.1 b.2.1 with h2 | h2 | h2
    · exact Or.inl (Or.inr ⟨h, Or.inl h2⟩)
    · rcases le_total a.2.2.1 b.2.2.1 with h3 | h3
      · exact Or.inl (Or.inr ⟨h, Or.inr ⟨h2, h3⟩⟩)
      · exact Or.inr (Or.inr ⟨h.symm, Or.inr ⟨h2.symm, h3⟩⟩)
    · exact Or.inr (Or.inr ⟨h.symm, Or.inl h2⟩)
  · exact Or.inr (Or.inl h)

/-- C3: the range listing contains exactly the chat's stored rows whose
date lies between the inclusive lexicographic bounds, as
`(user_id, habit_id, date, status)` tuples sorted ascending by
`(user_id, habit_id, date)`, and every listed status is the stored
`Done` (1) or `NotDone` (0) — never null, since no reachable stored row
has a null status. -/
theorem listEntriesInRange_correct (db : TrackerDB) (c : Int)
    (hreach : Reachable db) (ds de : String) :
    (∀ t, t ∈ get_tracker_entries_for_date_range db c ds de ↔
      (TrackerRow.mk c t.1 t.2.1 t.2.2.1 t.2.2.2 ∈ db ∧
        ds ≤ t.2.2.1 ∧ t.2.2.1 ≤ de))
    ∧ (get_tracker_entries_for_date_range db c ds de).Pairwise
        (fun a b => entryLe a b = true)
    ∧ ∀ t ∈ get_tracker_entries_for_date_range db c ds de,
        t.2.2.2 = some 0 ∨ t.2.2.2 = some 1 := by
  refine ⟨fun t => mem_range_iff db c ds de t, ?_, ?_⟩
  · exact List.sorted_mergeSort entryLe_trans entryLe_total _
  · intro t ht
    rw [mem_range_iff] at ht
    have hinv := reachable_dbInv db hreach
    rw [dbInv, Bool.and_eq_true] at hinv
    have := List.all_eq_true.mp hinv.2 _ ht.1
    simpa using this

/-- C3 witness at the reachable one-row table obtained by one `Done`
write. -/
theorem listEntriesInRange_correct_witness :
    Reachable (set_tracker_entry [] 1 2 "reading" "2024-01-01" (some true))
    ∧ ((∀ t, t ∈ get_tracker_entries_for_date_range
          (set_tracker_entry [] 1 2 "reading" "2024-01-01" (some true))
          1 "2024-01-01" "2024-01-07" ↔
        (TrackerRow.mk 1 t.1 t.2.1 t.2.2.1 t.2.2.2 ∈
            set_tracker_entry [] 1 2 "reading" "2024-01-01" (some true) ∧
          "2024-01-01" ≤ t.2.2.1 ∧ t.2.2.1 ≤ "2024-01-07"))
      ∧ (get_tracker_entries_for_date_range
          (set_tracker_entry [] 1 2 "reading" "2024-01-01" (some true))
          1 "2024-01-01" "2024-01-07").Pairwise
            (fun a b => entryLe a b = true)
      ∧ ∀ t ∈ get_tracker_entries_for_date_range
          (set_tracker_entry [] 1 2 "reading" "2024-01-01" (some true))
          1 "2024-01-01" "2024-01-07",
          t.2.2.2 = some 0 ∨ t.2.2.2 = some 1) :=
  ⟨Reachable.step 1 2 "reading" "2024-01-01" (some true) Reachable.empty,
   listEntriesInRange_correct
     (set_tracker_entry [] 1 2 "reading" "2024-01-01" (some true)) 1
     (Reachable.step 1 2 "reading" "2024-01-01" (some true) Reachable.empty)
     "2024-01-01" "2024-01-07"⟩

/-- After `set_habit`, every row matching the key carries the stored
`emoji` and `name`. -/
theorem set_habit_values (hdb : HabitsDB) (c : Int) (h e n : String) :
    ∀ r ∈ set_habit hdb c h e n, habitKeyMatches r c h = true →
      r.emoji = e ∧ r.name = n := by
  intro r hr hk
  simp only [set_habit] at hr
  cases ha : hdb.any (fun r => habitKeyMatches r c h) with
  | true =>
      rw [ha, if_pos rfl, List.mem_map] at hr
      obtain ⟨r₀, hr₀, hfr⟩ := hr
      by_cases hk0 : habitKeyMatches r₀ c h = true
      · rw [if_pos hk0] at hfr
        subst hfr
        exact ⟨rfl, rfl⟩
      · rw [if_neg hk0] at hfr
        subst hfr
        exact absurd hk hk0
  | false =>
      rw [ha, if_neg Bool.false_ne_true, List.mem_append] at hr
      rcases hr with hr | hr
      · exact absurd hk (by simpa using List.any_eq_false.mp ha r hr)
      · rw [List.mem_singleton] at hr
        subst hr
        exact ⟨rfl, rfl⟩

/-- After `set_habit`, a row matching the key exists. -/
theorem set_habit_hasRow (hdb : HabitsDB) (c : Int) (h e n : String) :
    (set_habit hdb c h e n).any (fun r => habitKeyMatches r c h) = true := by
  simp only [set_habit]
  cases ha : hdb.any (fun r => habitKeyMatches r c h) with
  | true =>
      rw [if_pos rfl, List.any_map, List.any_eq_true]
      rw [List.any_eq_true] at ha
      obtain ⟨r₀, hr₀, hk₀⟩ := ha
      refine ⟨r₀, hr₀, ?_⟩
      simp [Function.comp, hk₀, habitKeyMatches_set_meta]
  | false =>
      rw [if_neg Bool.false_ne_true, List.any_eq_true]
      exact ⟨⟨c, h, e, n⟩, List.mem_append_right _ (List.mem_singleton_self _),
        by simp [habitKeyMatches]⟩

/-- `set_habit` is the identity on a table that already stores the target
values for the key. -/
theorem set_habit_noop (db' : HabitsDB) (c : Int) (h e n : String)
    (ha : db'.any (fun r => habitKeyMatches r c h) = true)
    (hv : ∀ r ∈ db', habitKeyMatches r c h = true →
      r.emoji = e ∧ r.name = n) :
    set_habit db' c h e n = db' := by
  simp only [set_habit]
  rw [ha, if_pos rfl]
  have hid : ∀ r ∈ db', (if habitKeyMatches r c h = true then
      { r with emoji := e, name := n } else r) = r := by
    intro r hr
    by_cases hk : habitKeyMatches r c h = true
    · rw [if_pos hk]
      obtain ⟨he, hn⟩ := hv r hr hk
      cases r with
      | mk rc rh re rn =>
          simp only at he hn
          rw [he, hn]
    · rw [if_neg hk]
  calc db'.map _ = db'.map id := List.map_congr_left hid
    _ = db' := List.map_id db'

/-- Under the habit unique-key constraint, at most one row carries any
`(chat_id, habit_id)` key. -/
theorem countHabitKey_le_one (hdb : HabitsDB) (c : Int) (h : String)
    (hinv : noDupHabitKeys hdb = true) : countHabitKey hdb c h ≤ 1 := by
  induction hdb with
  | nil => simp [countHabitKey]
  | cons r t ih =>
      rw [noDupHabitKeys, Bool.and_eq_true] at hinv
      rw [countHabitKey, List.countP_cons]
      by_cases hk : habitKeyMatches r c h = true
      · have h0 : t.countP (fun s => habitKeyMatches s c h) = 0 := by
          rw [List.countP_eq_zero]
          intro s hs hks
          have hall := List.all_eq_true.mp hinv.1 s hs
          rw [Bool.not_eq_eq_eq_not, Bool.not_true] at hall
          simp only [habitKeyMatches, Bool.and_eq_true, beq_iff_eq]
            at hk hks
          rw [hk.1, hk.2, ← hks.1, ← hks.2] at hall
          simp at hall
        have h0' : countHabitKey t c h = 0 := h0
        rw [countHabitKey] at h0'
        rw [h0', if_pos hk]
      · rw [if_neg hk]
        have := ih hinv.2
        rw [countHabitKey] at this
        omega

/-- `set_habit` leaves exactly one row for the key when the habit
unique-key constraint holds beforehand. -/
theorem countHabitKey_set (hdb : HabitsDB) (c : Int) (h e n : String)
    (hinv : noDupHabitKeys hdb = true) :
    countHabitKey (set_habit hdb c h e n) c h = 1 := by
  simp only [set_habit]
  cases ha : hdb.any (fun r => habitKeyMatches r c h) with
  | true =>
      rw [if_pos rfl, countHabitKey, List.countP_map]
      have hcomp : ((fun r => habitKeyMatches r c h) ∘ fun r =>
          if habitKeyMatches r c h = true then
            { r with emoji := e, name := n } else r) =
          fun r => habitKeyMatches r c h := by
        funext r
        by_cases hk : habitKeyMatches r c h = true
        · simp [Function.comp, hk, habitKeyMatches_set_meta]
        · simp [Function.comp, hk]
      rw [hcomp]
      have hle : countHabitKey hdb c h ≤ 1 := countHabitKey_le_one hdb c h hinv
      have hpos : 0 < hdb.countP (fun r => habitKeyMatches r c h) := by
        rw [List.countP_pos_iff]
        exact List.any_eq_true.mp ha
      rw [countHabitKey] at hle
      omega
  | false =>
      rw [if_neg Bool.false_ne_true, countHabitKey, List.countP_append]
      have h0 : hdb.countP (fun r => habitKeyMatches r c h) = 0 := by
        rw [List.countP_eq_zero]
        exact List.any_eq_false.mp ha
      rw [h0]
      simp [habitKeyMatches]

/-- C7: upsert idempotence — a second identical `set_habit` leaves the
table unchanged, exactly one row carries the key with the stored values,
and `get_habit` returns them. -/
theorem upsertHabit_idempotent (hdb : HabitsDB) (c : Int) (h e n : String)
    (hinv : noDupHabitKeys hdb = true) :
    set_habit (set_habit hdb c h e n) c h e n = set_habit hdb c h e n
    ∧ countHabitKey (set_habit hdb c h e n) c h = 1
    ∧ get_habit (set_habit (set_habit hdb c h e n) c h e n) c h =
        some (e, n) :=
  ⟨set_habit_noop _ c h e n (set_habit_hasRow hdb c h e n)
      (set_habit_values hdb c h e n),
   countHabitKey_set hdb c h e n hinv,
   get_after_set_habit _ c h e n⟩

/-- C7 witness at a concrete one-row habits table. -/
theorem upsertHabit_idempotent_witness :
    noDupHabitKeys [HabitRow.mk 1 "reading" "📚" "Read"] = true
    ∧ (set_habit (set_habit [HabitRow.mk 1 "reading" "📚" "Read"]
          1 "sport" "🏋" "Gym") 1 "sport" "🏋" "Gym" =
        set_habit [HabitRow.mk 1 "reading" "📚" "Read"] 1 "sport" "🏋" "Gym"
      ∧ countHabitKey (set_habit [HabitRow.mk 1 "reading" "📚" "Read"]
          1 "sport" "🏋" "Gym") 1 "sport" = 1
      ∧ get_habit (set_habit (set_habit [HabitRow.mk 1 "reading" "📚" "Read"]
          1 "sport" "🏋" "Gym") 1 "sport" "🏋" "Gym") 1 "sport" =
        some ("🏋", "Gym")) :=
  ⟨by decide,
   upsertHabit_idempotent [HabitRow.mk 1 "reading" "📚" "Read"]
     1 "sport" "🏋" "Gym" (by decide)⟩

/-- One step of the dict-building loop adds exactly the processed pair to
the contained `(user, habit)` associations. -/
theorem insertUserHabit_mem (acc : List (Int × List String)) (a : Int)
    (b : String) (u : Int) (h : String) :
    (∃ hs, (u, hs) ∈ insertUserHabit acc a b ∧ h ∈ hs) ↔
      ((∃ hs, (u, hs) ∈ acc ∧ h ∈ hs) ∨ (a = u ∧ b = h)) := by
  simp only [insertUserHabit]
  cases ha : acc.any (fun q => q.1 == a) with
  | true =>
      rw [if_pos rfl]
      constructor
      · rintro ⟨hs, hmem, hh⟩
        rw [List.mem_map] at hmem
        obtain ⟨q, hq, hfq⟩ := hmem
        by_cases hqa : (q.1 == a) = true
        · rw [if_pos hqa] at hfq
          injection hfq with h1 h2
          subst h2
          rw [List.mem_append] at hh
          rcases hh with hh | hh
          · exact Or.inl ⟨q.2, by rw [← h1]; exact hq, hh⟩
          · rw [List.mem_singleton] at hh
            subst hh
            rw [beq_iff_eq] at hqa
            exact Or.inr ⟨hqa ▸ h1, rfl⟩
        · rw [if_neg hqa] at hfq
          subst hfq
          exact Or.inl ⟨hs, hq, hh⟩
      · rintro (⟨hs, hmem, hh⟩ | ⟨rfl, rfl⟩)
        · by_cases hua : (u == a) = true
          · refine ⟨hs ++ [b], ?_, List.mem_append_left _ hh⟩
            rw [List.mem_map]
            exact ⟨(u, hs), hmem, by simp [hua]⟩
          · refine ⟨hs, ?_, hh⟩
            rw [List.mem_map]
            exact ⟨(u, hs), hmem, by simp [hua]⟩
        · rw [List.any_eq_true] at ha
          obtain ⟨q, hq, hqa⟩ := ha
          rw [beq_iff_eq] at hqa
          refine ⟨q.2 ++ [b], ?_,
            List.mem_append_right _ (List.mem_singleton_self b)⟩
          rw [List.mem_map]
          refine ⟨q, hq, ?_⟩
          rw [if_pos (beq_iff_eq.mpr hqa)]
          rw [hqa]
      | false =>
      rw [if_neg Bool.false_ne_true]
      constructor
      · rintro ⟨hs, hmem, hh⟩
        rw [List.mem_append] at hmem
        rcases hmem with hmem | hmem
        · exact Or.inl ⟨hs, hmem, hh⟩
        · rw [List.mem_singleton] at hmem
          injection hmem with h1 h2
          subst h2
          rw [List.mem_singleton] at hh
          exact Or.inr ⟨h1.symm, hh.symm⟩
      · rintro (⟨hs, hmem, hh⟩ | ⟨rfl, rfl⟩)
        · exact ⟨hs, List.mem_append_left _ hmem, hh⟩
        · exact ⟨[b], List.mem_append_right _ (List.mem_singleton_self _),
            List.mem_singleton_self _⟩

/-- The dict-building fold contains `(u, h)` iff the accumulator already
did or the pair occurs among the processed rows. -/
theorem foldl_insertUserHabit_mem (ps : List (Int × String)) (u : Int)
    (h : String) :
    ∀ acc, (∃ hs, (u, hs) ∈
        ps.foldl (fun acc p => insertUserHabit acc p.1 p.2) acc ∧ h ∈ hs) ↔
      ((∃ hs, (u, hs) ∈ acc ∧ h ∈ hs) ∨ (u, h) ∈ ps) := by
  induction ps with
  | nil =>
      intro acc
      simp
  | cons p t ih =>
      intro acc
      rw [List.foldl_cons, ih, insertUserHabit_mem]
      constructor
      · rintro ((hmem | ⟨h1, h2⟩) | hmem)
        · exact Or.inl hmem
        · refine Or.inr ?_
          rw [List.mem_cons]
          left
          rw [← h1, ← h2]
        · exact Or.inr (List.mem_cons_of_mem _ hmem)
      · rintro (hmem | hmem)
        · exact Or.inl (Or.inl hmem)
        · rw [List.mem_cons] at hmem
          rcases hmem with heq | hmem
          · exact Or.inl (Or.inr ⟨(congrArg Prod.fst heq).symm,
              (congrArg Prod.snd heq).symm⟩)
          · exact Or.inr hmem

/-- `get_all_user_habits_for_chat` contains habit `h` under user `u` iff
some tracker row for `(c, u, h)` exists, with any date. -/
theorem allUserHabits_mem (db : TrackerDB) (c u : Int) (h : String) :
    (∃ hs, (u, hs) ∈ get_all_user_habits_for_chat db c ∧ h ∈ hs) ↔
      ∃ d st, TrackerRow.mk c u h d st ∈ db := by
  unfold get_all_user_habits_for_chat
  rw [foldl_insertUserHabit_mem]
  simp only [List.not_mem_nil, false_and, exists_false, false_or]
  rw [List.mem_mergeSort, List.mem_dedup, List.mem_map]
  constructor
  · rintro ⟨r, hr, hfr⟩
    rw [List.mem_filter] at hr
    cases r with
    | mk rc ru rh rd rs =>
        have hc : rc = c := by simpa using hr.2
        injection hfr with h1 h2
        subst hc
        subst h1
        subst h2
        exact ⟨rd, rs, hr.1⟩
  · rintro ⟨d, st, hmem⟩
    exact ⟨TrackerRow.mk c u h d st, List.mem_filter.mpr ⟨hmem, by simp⟩, rfl⟩

/-- The dict-building fold keeps the users strictly ascending and each
habit list strictly ascending, provided the processed pairs are strictly
lex-sorted and compatible with the accumulator. -/
theorem foldl_insertUserHabit_sorted (ps : List (Int × String)) :
    ∀ acc : List (Int × List String),
      acc.Pairwise (fun q q' => q.1 < q'.1) →
      (∀ q ∈ acc, q.2.Pairwise (fun x y => x < y)) →
      (∀ p ∈ ps, ∀ q ∈ acc, q.1 < p.1 ∨ (q.1 = p.1 ∧ ∀ x ∈ q.2, x < p.2)) →
      ps.Pairwise (fun p p' => p.1 < p'.1 ∨ (p.1 = p'.1 ∧ p.2 < p'.2)) →
      ((ps.foldl (fun acc p => insertUserHabit acc p.1 p.2) acc).Pairwise
          (fun q q' => q.1 < q'.1)
        ∧ ∀ q ∈ ps.foldl (fun acc p => insertUserHabit acc p.1 p.2) acc,
            q.2.Pairwise (fun x y => x < y)) := by
  induction ps with
  | nil =>
      intro acc h1 h2 _ _
      exact ⟨h1, h2⟩
  | cons p t ih =>
      intro acc h1 h2 h3 h4
      rw [List.pairwise_cons] at h4
      obtain ⟨h4head, h4tail⟩ := h4
      rw [List.foldl_cons]
      cases ha : acc.any (fun q => q.1 == p.1) with
      | true =>
          have hins : insertUserHabit acc p.1 p.2 =
              acc.map (fun q =>
                if q.1 == p.1 then (q.1, q.2 ++ [p.2]) else q) := by
            simp only [insertUserHabit]
            rw [ha, if_pos rfl]
          rw [hins]
          have hfst : ∀ q : Int × List String,
              ((if q.1 == p.1 then (q.1, q.2 ++ [p.2]) else q) :
                Int × List String).1 = q.1 := by
            intro q
            by_cases hq : (q.1 == p.1) = true
            · rw [if_pos hq]
            · rw [if_neg hq]
          apply ih
          · rw [List.pairwise_map]
            refine h1.imp_of_mem ?_
            intro q q' _ _ hlt
            rw [hfst q, hfst q']
            exact hlt
          · intro q' hq'
            rw [List.mem_map] at hq'
            obtain ⟨q, hq, hfq⟩ := hq'
            by_cases hqp : (q.1 == p.1) = true
            · rw [if_pos hqp] at hfq
              subst hfq
              show (q.2 ++ [p.2]).Pairwise (fun x y => x < y)
              rw [List.pairwise_append]
              refine ⟨h2 q hq, List.pairwise_singleton _ _, ?_⟩
              intro x hx y hy
              rw [List.mem_singleton] at hy
              subst hy
              rcases h3 p (List.mem_cons_self p t) q hq with hlt | ⟨_, hall⟩
              · rw [beq_iff_eq] at hqp
                exact absurd hlt (by rw [hqp]; exact lt_irrefl _)
              · exact hall x hx
            · rw [if_neg hqp] at hfq
              subst hfq
              exact h2 q hq
          · intro p' hp' q' hq'
            rw [List.mem_map] at hq'
            obtain ⟨q, hq, hfq⟩ := hq'
            have hC := h3 p (List.mem_cons_self p t) q hq
            have hlex := h4head p' hp'
            by_cases hqp : (q.1 == p.1) = true
            · rw [if_pos hqp] at hfq
              subst hfq
              rw [beq_iff_eq] at hqp
              rcases hlex with hlt | ⟨heq, hlt2⟩
              · exact Or.inl (by show q.1 < p'.1; rw [hqp]; exact hlt)
              · refine Or.inr ⟨by show q.1 = p'.1; rw [hqp, heq], ?_⟩
                intro x hx
                rw [show ((q.1, q.2 ++ [p.2]) : Int × List String).2 =
                  q.2 ++ [p.2] from rfl, List.mem_append] at hx
                rcases hx with hx | hx
                · rcases hC with hlt3 | ⟨_, hall⟩
                  · exact absurd hlt3 (by rw [hqp]; exact lt_irrefl _)
                  · exact lt_trans (hall x hx) hlt2
                · rw [List.mem_singleton] at hx
                  subst hx
                  exact hlt2
            · rw [if_neg hqp] at hfq
              subst hfq
              rcases hC with hlt3 | ⟨heq3, _⟩
              · rcases hlex with hlt | ⟨heq, _⟩
                · exact Or.inl (lt_trans hlt3 hlt)
                · exact Or.inl (by rw [← heq]; exact hlt3)
              · exact absurd (beq_iff_eq.mpr heq3) (by simpa using hqp)
          · exact h4tail
      | false =>
          have hins : insertUserHabit acc p.1 p.2 = acc ++ [(p.1, [p.2])] := by
            simp only [insertUserHabit]
            rw [ha, if_neg Bool.false_ne_true]
          rw [hins]
          apply ih
          · rw [List.pairwise_append]
            refine ⟨h1, List.pairwise_singleton _ _, ?_⟩
            intro q hq q' hq'
            rw [List.mem_singleton] at hq'
            subst hq'
            rcases h3 p (List.mem_cons_self p t) q hq with hlt | ⟨heq, _⟩
            · exact hlt
            · exact absurd (beq_iff_eq.mpr heq)
                (by simpa using List.any_eq_false.mp ha q hq)
          · intro q hq
            rw [List.mem_append] at hq
            rcases hq with hq | hq
            · exact h2 q hq
            · rw [List.mem_singleton] at hq
              subst hq
              exact List.pairwise_singleton _ _
          · intro p' hp' q hq
            rw [List.mem_append] at hq
            rcases hq with hq | hq
            · rcases h3 p (List.mem_cons_self p t) q hq with hlt3 | ⟨heq3, _⟩
              · rcases h4head p' hp' with hlt | ⟨heq, _⟩
                · exact Or.inl (lt_trans hlt3 hlt)
                · exact Or.inl (by rw [← heq]; exact hlt3)
              · exact absurd (beq_iff_eq.mpr heq3)
                  (by simpa using List.any_eq_false.mp ha q hq)
            · rw [List.mem_singleton] at hq
              subst hq
              rcases h4head p' hp' with hlt | ⟨heq, hlt2⟩
              · exact Or.inl hlt
              · refine Or.inr ⟨heq, ?_⟩
                intro x hx
                rw [List.mem_singleton] at hx
                subst hx
                exact hlt2
          · exact h4tail

/-- The sorted distinct `(user, habit)` pairs are strictly lex-sorted. -/
theorem sortedPairs_strict (l : List (Int × String)) :
    (l.dedup.mergeSort pairLe).Pairwise
      (fun p p' => p.1 < p'.1 ∨ (p.1 = p'.1 ∧ p.2 < p'.2)) := by
  have hsorted := List.sorted_mergeSort pairLe_trans pairLe_total l.dedup
  have hnodup : (l.dedup.mergeSort pairLe).Nodup :=
    (List.mergeSort_perm l.dedup pairLe).symm.nodup (List.nodup_dedup l)
  refine List.Pairwise.imp ?_ (hsorted.and hnodup)
  intro a b hab
  obtain ⟨hle, hne⟩ := hab
  simp only [pairLe, Bool.or_eq_true, Bool.and_eq_true, decide_eq_true_eq,
    beq_iff_eq] at hle
  rcases hle with hlt | ⟨heq, hle2⟩
  · exact Or.inl hlt
  · refine Or.inr ⟨heq, lt_of_le_of_ne hle2 ?_⟩
    intro he2
    exact hne (Prod.ext heq he2)

/-- The all-time user→habits map has its users strictly ascending and
each habit list strictly ascending (hence duplicate-free). -/
theorem allUserHabits_sorted (db : TrackerDB) (c : Int) :
    (get_all_user_habits_for_chat db c).Pairwise (fun q q' => q.1 < q'.1)
    ∧ ∀ q ∈ get_all_user_habits_for_chat db c,
        q.2.Pairwise (fun x y => x < y) := by
  unfold get_all_user_habits_for_chat
  apply foldl_insertUserHabit_sorted
  · exact List.Pairwise.nil
  · intro q hq
    exact absurd hq (List.not_mem_nil q)
  · intro p _ q hq
    exact absurd hq (List.not_mem_nil q)
  · exact sortedPairs_strict _

/-- C4: the all-time `user → habits` mapping holds `(u, h)` iff some
tracker row for `(chat, u, h)` exists with any date; users appear in
strictly ascending order and each habit list is strictly ascending
without duplicates; `get_user_habits_for_chat` is the same derivation
restricted to one user, equally sorted. -/
theorem derived_membership_correct (db : TrackerDB) (c : Int) :
    (∀ u h, (∃ hs, (u, hs) ∈ get_all_user_habits_for_chat db c ∧ h ∈ hs) ↔
        ∃ d st, TrackerRow.mk c u h d st ∈ db)
    ∧ (get_all_user_habits_for_chat db c).Pairwise (fun q q' => q.1 < q'.1)
    ∧ (∀ q ∈ get_all_user_habits_for_chat db c,
        q.2.Pairwise (fun x y => x < y))
    ∧ ∀ u, (∀ h, h ∈ get_user_habits_for_chat db c u ↔
          ∃ d st, TrackerRow.mk c u h d st ∈ db)
        ∧ (get_user_habits_for_chat db c u).Pairwise (fun x y => x < y) := by
  refine ⟨fun u h => allUserHabits_mem db c u h,
    (allUserHabits_sorted db c).1, (allUserHabits_sorted db c).2, ?_⟩
  intro u
  constructor
  · intro h
    unfold get_user_habits_for_chat
    rw [List.mem_mergeSort, List.mem_dedup, List.mem_map]
    constructor
    · rintro ⟨r, hr, hfr⟩
      rw [List.mem_filter] at hr
      cases r with
      | mk rc ru rh rd rs =>
          obtain ⟨hmem, hp⟩ := hr
          simp only [Bool.and_eq_true, beq_iff_eq] at hp
          obtain ⟨hc, hu⟩ := hp
          subst hc
          subst hu
          subst hfr
          exact ⟨rd, rs, hmem⟩
    · rintro ⟨d, st, hmem⟩
      exact ⟨TrackerRow.mk c u h d st,
        List.mem_filter.mpr ⟨hmem, by simp⟩, rfl⟩
  · unfold get_user_habits_for_chat
    have hsorted := List.sorted_mergeSort strLe_trans strLe_total
      (((db.filter fun r => r.chat_id == c && r.user_id == u).map
        fun r => r.habit_id).dedup)
    have hnodup := (List.mergeSort_perm (((db.filter
        fun r => r.chat_id == c && r.user_id == u).map
        fun r => r.habit_id).dedup) strLe).symm.nodup
      (List.nodup_dedup _)
    refine List.Pairwise.imp ?_ (hsorted.and hnodup)
    intro a b hab
    obtain ⟨hle, hne⟩ := hab
    simp only [strLe, decide_eq_true_eq] at hle
    exact lt_of_le_of_ne hle hne

/-- Folding over a filter equals folding with a guarded step. -/
theorem foldl_filter_general {α β : Type} (p : α → Bool) (g : β → α → β)
    (l : List α) : ∀ m, (l.filter p).foldl g m =
      l.foldl (fun m e => if p e then g m e else m) m := by
  induction l with
  | nil => intro m; rfl
  | cons a t ih =>
      intro m
      by_cases hp : p a = true
      · rw [List.filter_cons_of_pos hp, List.foldl_cons, List.foldl_cons,
          if_pos hp, ih]
      · rw [List.filter_cons_of_neg (by simpa using hp), List.foldl_cons,
          if_neg hp, ih]

/-- The inner loop of the assembly only processes the entries matching the
current `(user, habit)` pair. -/
theorem buildDateMap_as_filter (u : Int) (h : String)
    (entries : List (Int × String × String × Option Int)) :
    buildDateMap u h entries =
      (entries.filter (fun e => e.1 == u && e.2.1 == h)).foldl
        (fun m e => dictInsert m e.2.2.1 (e.2.2.2.map (fun s => s == 1)))
        [] := by
  unfold buildDateMap
  rw [foldl_filter_general]

/-- Python dict assignment on a fresh key appends the binding. -/
theorem dictInsert_not_mem (m : List (String × Option Bool)) (k : String)
    (v : Option Bool) (hk : m.any (fun q => q.1 == k) = false) :
    dictInsert m k v = m ++ [(k, v)] := by
  simp only [dictInsert]
  rw [hk, if_neg Bool.false_ne_true]

/-- Folding dict assignments over entries with pairwise-fresh dates builds
exactly the date→status association list. -/
theorem foldl_dictInsert_fresh
    (fes : List (Int × String × String × Option Int)) :
    ∀ m : List (String × Option Bool),
      (∀ e ∈ fes, ∀ q ∈ m, q.1 ≠ e.2.2.1) →
      (fes.map (fun e => e.2.2.1)).Nodup →
      fes.foldl (fun m e =>
          dictInsert m e.2.2.1 (e.2.2.2.map (fun s => s == 1))) m =
        m ++ fes.map (fun e => (e.2.2.1, e.2.2.2.map (fun s => s == 1))) := by
  induction fes with
  | nil =>
      intro m _ _
      simp
  | cons e t ih =>
      intro m hdisj hnd
      rw [List.foldl_cons]
      have hfresh : m.any (fun q => q.1 == e.2.2.1) = false := by
        rw [List.any_eq_false]
        intro q hq
        simpa using hdisj e (List.mem_cons_self e t) q hq
      rw [dictInsert_not_mem m _ _ hfresh]
      rw [List.map_cons, List.nodup_cons] at hnd
      rw [ih]
      · simp
      · intro e' he' q hq
        rw [List.mem_append] at hq
        rcases hq with hq | hq
        · exact hdisj e' (List.mem_cons_of_mem _ he') q hq
        · rw [List.mem_singleton] at hq
          subst hq
          intro hcontra
          exact hnd.1 (by rw [hcontra]; exact List.mem_map_of_mem _ he')
      · exact hnd.2

/-- Membership in the assembled date map, under fresh dates among the
matching entries. -/
theorem buildDateMap_mem (u : Int) (h : String)
    (entries : List (Int × String × String × Option Int))
    (hnd : ((entries.filter (fun e => e.1 == u && e.2.1 == h)).map
      (fun e => e.2.2.1)).Nodup) (d : String) (v : Option Bool) :
    (d, v) ∈ buildDateMap u h entries ↔
      ∃ e ∈ entries, (e.1 = u ∧ e.2.1 = h ∧ e.2.2.1 = d) ∧
        v = e.2.2.2.map (fun s => s == 1) := by
  rw [buildDateMap_as_filter,
    foldl_dictInsert_fresh _ [] (by intro e _ q hq; cases hq) hnd,
    List.nil_append, List.mem_map]
  constructor
  · rintro ⟨e, he, hfe⟩
    rw [List.mem_filter] at he
    injection hfe with h1 h2
    have hp := he.2
    simp only [Bool.and_eq_true, beq_iff_eq] at hp
    exact ⟨e, he.1, ⟨hp.1, hp.2, h1⟩, h2.symm⟩
  · rintro ⟨e, he, ⟨h1, h2, h3⟩, h4⟩
    refine ⟨e, List.mem_filter.mpr ⟨he, by simp [h1, h2]⟩, ?_⟩
    rw [h3, ← h4]

/-- Under the unique-key constraint, the dates of the in-range entries
matching one `(user, habit)` pair are pairwise distinct. -/
theorem rangeEntries_dates_nodup (db : TrackerDB) (c : Int) (ds de : String)
    (hnd : noDupKeys db = true) (u : Int) (h : String) :
    (((get_tracker_entries_for_date_range db c ds de).filter
        (fun e => e.1 == u && e.2.1 == h)).map (fun e => e.2.2.1)).Nodup := by
  unfold get_tracker_entries_for_date_range
  have hperm := List.Perm.map (fun e : Int × String × String × Option Int =>
      e.2.2.1)
    (List.Perm.filter (fun e : Int × String × String × Option Int =>
        e.1 == u && e.2.1 == h)
      (List.mergeSort_perm ((db.filter (fun r =>
          r.chat_id == c && decide (ds ≤ r.date) && decide (r.date ≤ de))).map
        (fun r => (r.user_id, r.habit_id, r.date, r.status))) entryLe).symm)
  apply hperm.nodup
  rw [List.filter_map, List.map_map]
  have hsub : ((db.filter (fun r =>
      r.chat_id == c && decide (ds ≤ r.date) && decide (r.date ≤ de))).filter
      ((fun e : Int × String × String × Option Int =>
        e.1 == u && e.2.1 == h) ∘
        (fun r => (r.user_id, r.habit_id, r.date, r.status)))).Sublist db :=
    (List.filter_sublist _).trans (List.filter_sublist db)
  have hpw := (noDupKeys_iff_pairwise db).mp hnd
  have hpwR := (List.Pairwise.sublist hsub hpw).imp_of_mem
    (l := (db.filter (fun r =>
      r.chat_id == c && decide (ds ≤ r.date) && decide (r.date ≤ de))).filter
      ((fun e : Int × String × String × Option Int =>
        e.1 == u && e.2.1 == h) ∘
        (fun r => (r.user_id, r.habit_id, r.date, r.status))))
    (S := fun r s => r.date ≠ s.date) ?_
  · exact List.Pairwise.map _ (fun a b hab => hab) hpwR
  · intro a b ha hb hnsk heq
    apply hnsk
    rw [List.mem_filter] at ha hb
    obtain ⟨ha1, ha2⟩ := ha
    obtain ⟨hb1, hb2⟩ := hb
    rw [List.mem_filter] at ha1 hb1
    have ha3 := ha1.2
    have hb3 := hb1.2
    simp only [Function.comp, Bool.and_eq_true, beq_iff_eq,
      decide_eq_true_eq] at ha2 hb2 ha3 hb3
    simp [sameKey, ha2.1, ha2.2, hb2.1, hb2.2, ha3.1.1, hb3.1.1, heq]

/-- C5: the assembled tracker data has exactly the all-time
`(user, habit)` keys — pairs whose rows all lie outside the window keep
their (then empty) date map — and each innermost map binds a date iff a
stored row for it lies inside the window, `Done` as `True` and `NotDone`
as `False`; dates without a row are absent. -/
theorem trackerData_assembly_correct (db : TrackerDB) (c : Int)
    (ds de : String) (hinv : dbInv db = true) :
    (get_tracker_data_for_chat db c ds de).map
        (fun q => (q.1, q.2.map Prod.fst)) = get_all_user_habits_for_chat db c
    ∧ ∀ u hm, (u, hm) ∈ get_tracker_data_for_chat db c ds de →
        ∀ h dm, (h, dm) ∈ hm →
          (∀ d v, (d, v) ∈ dm ↔
            ∃ st, TrackerRow.mk c u h d st ∈ db ∧ ds ≤ d ∧ d ≤ de ∧
              v = st.map (fun s => s == 1))
          ∧ ∀ d v, (d, v) ∈ dm → v = some true ∨ v = some false := by
  rw [dbInv, Bool.and_eq_true] at hinv
  constructor
  · simp only [get_tracker_data_for_chat]
    rw [List.map_map]
    have hid : ((fun q : Int × List (String × List (String × Option Bool)) =>
        (q.1, q.2.map Prod.fst)) ∘ (fun q : Int × List String =>
        (q.1, q.2.map (fun h => (h, buildDateMap q.1 h
          (get_tracker_entries_for_date_range db c ds de)))))) = id := by
      funext q
      simp [Function.comp_def]
    rw [hid, List.map_id]
  · intro u hm hmem h dm hdm
    simp only [get_tracker_data_for_chat] at hmem
    rw [List.mem_map] at hmem
    obtain ⟨q, hq, hgq⟩ := hmem
    injection hgq with h1 h2
    subst h1
    subst h2
    rw [List.mem_map] at hdm
    obtain ⟨h₀, _, heq⟩ := hdm
    injection heq with h3 h4
    subst h3
    subst h4
    have hiff : ∀ d v, (d, v) ∈ buildDateMap q.1 h₀
        (get_tracker_entries_for_date_range db c ds de) ↔
        ∃ st, TrackerRow.mk c q.1 h₀ d st ∈ db ∧ ds ≤ d ∧ d ≤ de ∧
          v = st.map (fun s => s == 1) := by
      intro d v
      rw [buildDateMap_mem q.1 h₀ _
        (rangeEntries_dates_nodup db c ds de hinv.1 q.1 h₀)]
      constructor
      · rintro ⟨e, he, ⟨he1, he2, he3⟩, he4⟩
        rw [mem_range_iff] at he
        refine ⟨e.2.2.2, ?_, ?_, ?_, he4⟩
        · rw [← he1, ← he2, ← he3]
          exact he.1
        · rw [← he3]
          exact he.2.1
        · rw [← he3]
          exact he.2.2
      · rintro ⟨st, hmem2, hd1, hd2, hv⟩
        refine ⟨(q.1, h₀, d, st), ?_, ⟨rfl, rfl, rfl⟩, hv⟩
        rw [mem_range_iff]
        exact ⟨hmem2, hd1, hd2⟩
    refine ⟨hiff, ?_⟩
    intro d v hdv
    rw [hiff d v] at hdv
    obtain ⟨st, hmem2, _, _, hv⟩ := hdv
    have hok := List.all_eq_true.mp hinv.2 _ hmem2
    simp only [Bool.or_eq_true, beq_iff_eq] at hok
    rcases hok with hok | hok
    · right
      rw [hv]
      have : st = some 0 := hok
      rw [this]
      rfl
    · left
      rw [hv]
      have : st = some 1 := hok
      rw [this]
      rfl

/-- C5 witness at a concrete two-row invariant-satisfying table (one row
inside the window, one outside). -/
theorem trackerData_assembly_correct_witness :
    dbInv [TrackerRow.mk 1 2 "reading" "2024-01-03" (some 1),
        TrackerRow.mk 1 2 "sport" "2023-05-01" (some 0)] = true
    ∧ ((get_tracker_data_for_chat
          [TrackerRow.mk 1 2 "reading" "2024-01-03" (some 1),
            TrackerRow.mk 1 2 "sport" "2023-05-01" (some 0)]
          1 "2024-01-01" "2024-01-07").map
          (fun q => (q.1, q.2.map Prod.fst)) =
        get_all_user_habits_for_chat
          [TrackerRow.mk 1 2 "reading" "2024-01-03" (some 1),
            TrackerRow.mk 1 2 "sport" "2023-05-01" (some 0)] 1
      ∧ ∀ u hm, (u, hm) ∈ get_tracker_data_for_chat
            [TrackerRow.mk 1 2 "reading" "2024-01-03" (some 1),
              TrackerRow.mk 1 2 "sport" "2023-05-01" (some 0)]
            1 "2024-01-01" "2024-01-07" →
          ∀ h dm, (h, dm) ∈ hm →
            (∀ d v, (d, v) ∈ dm ↔
              ∃ st, TrackerRow.mk 1 u h d st ∈
                  [TrackerRow.mk 1 2 "reading" "2024-01-03" (some 1),
                    TrackerRow.mk 1 2 "sport" "2023-05-01" (some 0)] ∧
                "2024-01-01" ≤ d ∧ d ≤ "2024-01-07" ∧
                v = st.map (fun s => s == 1))
            ∧ ∀ d v, (d, v) ∈ dm → v = some true ∨ v = some false) :=
  ⟨by decide,
   trackerData_assembly_correct
     [TrackerRow.mk 1 2 "reading" "2024-01-03" (some 1),
       TrackerRow.mk 1 2 "sport" "2023-05-01" (some 0)]
     1 "2024-01-01" "2024-01-07" (by decide)⟩

/-- The per-user replicated emoji row equals the per-column lookup over
the flattened column list. -/
theorem userHeaderCells_eq_map (pairs : List (Int × List String))
    (umeta : List (Int × String)) :
    userHeaderCells pairs umeta =
      (flattenColumns pairs).map (fun col => lookupUserEmoji umeta col.1) := by
  unfold userHeaderCells flattenColumns
  induction pairs with
  | nil => rfl
  | cons q t ih =>
      rw [List.flatMap_cons, List.flatMap_cons, List.map_append,
        List.map_map, ih]
      rfl

/-- C9: the renderer's user-glyph header, habit-glyph header, and every
date row are each the image of the same flattened `(user, habit)` column
list — users ascending, habits ascending within each user, as produced by
the store — so all rows have equal length and position `i` refers to the
same column in each row. -/
theorem renderer_column_alignment (db : TrackerDB) (c : Int)
    (umeta : List (Int × String)) (hmeta : List (String × String))
    (ds de : String) (dates : List String) :
    userHeaderCells (get_all_user_habits_for_chat db c) umeta =
      (flattenColumns (get_all_user_habits_for_chat db c)).map
        (fun col => lookupUserEmoji umeta col.1)
    ∧ habitHeaderCells (get_all_user_habits_for_chat db c) hmeta =
      (flattenColumns (get_all_user_habits_for_chat db c)).map
        (fun col => lookupHabitEmoji hmeta col.2)
    ∧ (∀ d ∈ dates, dateRowCells (get_all_user_habits_for_chat db c)
        (get_tracker_entries_for_date_range db c ds de) d =
        (flattenColumns (get_all_user_habits_for_chat db c)).map
          (fun col => statusGlyph (entryStatus
            (get_tracker_entries_for_date_range db c ds de) col.1 col.2 d)))
    ∧ (userHeaderCells (get_all_user_habits_for_chat db c) umeta).length =
        (flattenColumns (get_all_user_habits_for_chat db c)).length
    ∧ (habitHeaderCells (get_all_user_habits_for_chat db c) hmeta).length =
        (flattenColumns (get_all_user_habits_for_chat db c)).length
    ∧ ∀ d ∈ dates, (dateRowCells (get_all_user_habits_for_chat db c)
        (get_tracker_entries_for_date_range db c ds de) d).length =
        (flattenColumns (get_all_user_habits_for_chat db c)).length := by
  refine ⟨userHeaderCells_eq_map _ _, rfl, fun d _ => rfl, ?_, ?_, ?_⟩
  · rw [userHeaderCells_eq_map, List.length_map]
  · simp only [habitHeaderCells, List.length_map]
  · intro d _
    simp only [dateRowCells, List.length_map]

/-- C10 witness: mutating key `(1,2,"a","2024-01-01")` does not disturb
the stored value at key `(1,2,"b","2024-01-01")`. -/
theorem setEntry_frame_witness :
    ¬((1 : Int) = 1 ∧ (2 : Int) = 2 ∧ "a" = "b" ∧
        "2024-01-01" = "2024-01-01")
    ∧ get_tracker_entry (set_tracker_entry
        [TrackerRow.mk 1 2 "b" "2024-01-01" (some 1)]
        1 2 "a" "2024-01-01" (some false)) 1 2 "b" "2024-01-01" =
      get_tracker_entry [TrackerRow.mk 1 2 "b" "2024-01-01" (some 1)]
        1 2 "b" "2024-01-01" :=
  ⟨by decide,
   setEntry_frame [TrackerRow.mk 1 2 "b" "2024-01-01" (some 1)]
     1 2 1 2 "a" "2024-01-01" "b" "2024-01-01" (some false) (by decide)⟩

end TgBot
